import Mathlib

/-!
Verification of the NNEF-to-TensorFlow pre-conversion graph passes
(`nnef_to_tf_passes.py`): the padding resolver (`_get_paddings`), the
padding-extraction rewrite (`_transform_extract_padding`) and the bias
splitter (`_transform_extract_bias_add`), over a shallow embedding of the
NNEF in-memory graph IR.

Tensors and operators are stored in lists and referenced by their index
(a stable identity, mirroring Python object identity: the passes only
append new entities and update records in place).  Shapes are lists of
integers; attribute dictionaries are flattened into the record fields the
passes actually read.  The padding attribute starts as a list of
(before, after) pairs and is overwritten by the pass with a string tag,
so it is modelled as a sum of the two forms.
-/

/-- A tensor of the NNEF graph IR: shape, element type, and an optional
constant payload.  Names are managed by the external IR library
(`generate_missing_names`) and play no role in these passes, so they are
omitted. -/
structure NNEFTensor where
  shape : List Int
  dtype : String
  is_constant : Bool
  data : List Int
deriving DecidableEq, Repr

/-- The `padding` attribute: a list of (before, after) pairs before the
pass runs, or the string tag (`"VALID"` / `"SAME"`) the pass writes back. -/
inductive PaddingAttr where
  | pairs : List (Int × Int) → PaddingAttr
  | tag : String → PaddingAttr
deriving DecidableEq, Repr

/-- An operator of the NNEF graph IR.  `inputs`/`outputs` hold tensor
indices into the graph's tensor list.  The attribute dictionary is
flattened into the keys read by the passes (`padding`, `border`,
`stride`, `dilation`, `size`, `orig_filter_shape`, `orig_input_shape`);
an attribute an operator does not carry is represented by `[]`. -/
structure NNEFOperation where
  name : String
  inputs : List Nat
  outputs : List Nat
  padding : PaddingAttr
  border : String
  stride : List Int
  dilation : List Int
  size : List Int
  orig_filter_shape : List Int
  orig_input_shape : List Int
deriving DecidableEq, Repr

/-- The NNEF graph: tensors and operations addressed by index.  Creating
an entity appends it; rewiring updates a record at its index. -/
structure NNEFGraph where
  tensors : List NNEFTensor
  operations : List NNEFOperation
deriving DecidableEq, Repr

/-- Python `math.floor(t / 2)` for an integer `t`: floor division. -/
def floorHalf (t : Int) : Int := Int.fdiv t 2

/-- Python `math.ceil(t / 2)` for an integer `t`: negated floor of the
negation. -/
def ceilHalf (t : Int) : Int := -(Int.fdiv (-t) 2)

/-- `_calculate_padding_elem` from the source: reconstructs the
(before, after) padding of one dimension from the upscaled size, the
downscaled size, the filter size, the stride and the dilation. -/
def _calculate_padding_elem (upscaled_size downscaled_size filter_size stride dilation : Int) :
    Int × Int :=
  let dilated_filter_size := (filter_size - 1) * dilation + 1
  let t := (downscaled_size - 1) * stride + dilated_filter_size - upscaled_size
  (floorHalf t, ceilHalf t)

/-- `_calculate_padding` from the source: zips the five per-dimension
lists (truncating to the shortest, as Python `zip` does). -/
def _calculate_padding : List Int → List Int → List Int → List Int → List Int →
    List (Int × Int)
  | i :: is, o :: os, f :: fs, s :: ss, d :: ds =>
    _calculate_padding_elem i o f s d :: _calculate_padding is os fs ss ds
  | _, _, _, _, _ => []

/-- Python `sub in s` substring test over character lists. -/
def charsContain (sub : List Char) : List Char → Bool
  | [] => sub.isEmpty
  | c :: cs => List.isPrefixOf sub (c :: cs) || charsContain sub cs

/-- Python `sub in s` substring test on strings. -/
def strContains (s sub : String) : Bool := charsContain sub.toList s.toList

/-- Python `str.lower()` (the attribute values involved are ASCII). -/
def strLower (s : String) : String := String.mk (s.data.map Char.toLower)

/-- Modelled from the spec: `utils.recursive_any(nnefpadding, lambda x: x > 0)`
lives in the IR utility library, outside this file; per the spec it decides
whether the stored padding is all-zero across every dimension, i.e. whether
any padding amount of any pair is positive. -/
def recursive_any_pos (l : List (Int × Int)) : Bool :=
  l.any (fun p => decide (0 < p.1) || decide (0 < p.2))

/-- Modelled from the spec: the IR library's single-input accessor
`nnefop.input` (the operator's sole input tensor); fails unless the
operator has exactly one input. -/
def soleInput (g : NNEFGraph) (op : NNEFOperation) : Option NNEFTensor :=
  match op.inputs with
  | [i] => g.tensors[i]?
  | _ => none

/-- Modelled from the spec: the IR library's single-output accessor
`nnefop.output` (the operator's sole output tensor); fails unless the
operator has exactly one output. -/
def soleOutput (g : NNEFGraph) (op : NNEFOperation) : Option NNEFTensor :=
  match op.outputs with
  | [i] => g.tensors[i]?
  | _ => none

/-- The shape-arithmetic fallback of `_get_paddings` (source lines 67-133):
when the stored padding attribute is empty, reconstruct the padding from
the shapes, dispatching on the operator name; the final `assert False`
catch-all is `none`.  Reading tensors through the graph does not mutate
it, so this helper is a pure function of the graph.  (Per the spec, for
convolution kinds the upscaled/downscaled sizes are the trailing spatial
slices of the input/output shapes.) -/
def computeImplied (g : NNEFGraph) (nnefop : NNEFOperation) : Option (List (Int × Int)) :=
  if nnefop.name == "conv" then
    match nnefop.inputs with
    | input :: filter :: _ =>
      (g.tensors[input]?).bind fun inputT =>
      (g.tensors[filter]?).bind fun filterT =>
      (soleOutput g nnefop).bind fun outputT =>
      some (_calculate_padding (inputT.shape.drop 2) (outputT.shape.drop 2)
        (filterT.shape.drop 2) nnefop.stride nnefop.dilation)
    | _ => none
  else if nnefop.name == "deconv" then
    match nnefop.inputs with
    | input :: filter :: _ =>
      (g.tensors[input]?).bind fun inputT =>
      (g.tensors[filter]?).bind fun filterT =>
      (soleOutput g nnefop).bind fun outputT =>
      some (_calculate_padding (outputT.shape.drop 2) (inputT.shape.drop 2)
        (filterT.shape.drop 2) nnefop.stride nnefop.dilation)
    | _ => none
  else if nnefop.name == "argmax_pool" || nnefop.name == "max_pool_with_index" ||
      nnefop.name == "max_pool" || nnefop.name == "avg_pool" then
    (soleInput g nnefop).bind fun inputT =>
    (soleOutput g nnefop).bind fun outputT =>
    some (_calculate_padding inputT.shape outputT.shape nnefop.size
      nnefop.stride nnefop.dilation)
  else if nnefop.name == "conv_grad_filter" then
    match nnefop.inputs with
    | orig_input :: output_grad :: _ =>
      (g.tensors[orig_input]?).bind fun origT =>
      (g.tensors[output_grad]?).bind fun gradT =>
      some (_calculate_padding (origT.shape.drop 2) (gradT.shape.drop 2)
        nnefop.orig_filter_shape nnefop.stride nnefop.dilation)
    | _ => none
  else if nnefop.name == "avg_pool_grad" then
    match nnefop.inputs with
    | output_grad :: _ =>
      (g.tensors[output_grad]?).bind fun gradT =>
      some (_calculate_padding nnefop.orig_input_shape gradT.shape
        nnefop.size nnefop.stride nnefop.dilation)
    | _ => none
  else if nnefop.name == "max_pool_grad" then
    match nnefop.inputs with
    | orig_input :: orig_output :: _ =>
      (g.tensors[orig_input]?).bind fun origInT =>
      (g.tensors[orig_output]?).bind fun origOutT =>
      some (_calculate_padding origInT.shape origOutT.shape
        nnefop.size nnefop.stride nnefop.dilation)
    | _ => none
  else if nnefop.name == "max_pool_grad_with_index" then
    match nnefop.inputs with
    | orig_input :: _ :: output_grad :: _ =>
      (g.tensors[orig_input]?).bind fun origInT =>
      (g.tensors[output_grad]?).bind fun gradT =>
      some (_calculate_padding origInT.shape gradT.shape
        nnefop.size nnefop.stride nnefop.dilation)
    | _ => none
  else
    none

/-- `_get_paddings` from the source, in state-passing form: the graph the
resolver leaves behind is returned alongside the decision pair
(in-op padding tag, optional separate padding descriptor).  `none` models
a raised exception (the `assert False` catch-all, or an accessor
failure).  The stored padding attribute must still be in list form; a tag
(already-processed operator) would make Python's `len` / iteration
misbehave and is modelled as a failure. -/
def _get_paddings_st (g : NNEFGraph) (nnefop : NNEFOperation) :
    Option (NNEFGraph × (String × Option (List (Int × Int)))) :=
  match nnefop.padding with
  | .tag _ => none
  | .pairs nnefpadding =>
    if nnefpadding.isEmpty && strContains nnefop.name "pool"
        && strLower nnefop.border == "ignore" then
      some (g, ("SAME", none))
    else if nnefpadding.isEmpty && strContains nnefop.name "conv"
        && strLower nnefop.border == "constant" then
      some (g, ("SAME", none))
    else if !recursive_any_pos nnefpadding then
      some (g, ("VALID", none))
    else
      match (if nnefpadding.isEmpty then computeImplied g nnefop else some nnefpadding) with
      | none => none
      | some computed =>
        if recursive_any_pos computed then
          if strContains nnefop.name "conv" then
            some (g, ("VALID", some ([(0, 0), (0, 0)] ++ computed)))
          else
            some (g, ("VALID", some computed))
        else
          some (g, ("VALID", none))

/-- `_get_paddings` as the pass uses it: the decision component. -/
def _get_paddings (g : NNEFGraph) (nnefop : NNEFOperation) :
    Option (String × Option (List (Int × Int))) :=
  (_get_paddings_st g nnefop).map (fun r => r.2)

/-- The forward operator kinds of `_transform_extract_padding`. -/
def forward_ops : List String :=
  ["conv", "argmax_pool", "max_pool_with_index", "max_pool", "avg_pool"]

/-- The backward (gradient) operator kinds of `_transform_extract_padding`. -/
def backward_ops : List String :=
  ["deconv", "conv_grad_filter", "max_pool_grad_with_index", "avg_pool_grad", "max_pool_grad"]

/-- The union of the forward and backward kinds. -/
def supported_ops : List String := forward_ops ++ backward_ops

/-- The body of the `_transform_extract_padding` loop for the operator at
index `i`, in the source's statement order: resolve the paddings, write
the in-op tag into the padding attribute, assert that backward kinds got
no separate descriptor, and otherwise splice in a `box` padding operator
(size 1 in every dimension, the consumer's border, the descriptor as
padding) with a fresh output tensor, rewiring the consumer's first input
to it.  `Except.error` models a raised exception; the error value is the
graph state at the raise (Python mutates in place, so mutations made
before the raise persist).  The accessor-failure fallbacks (`.error` on a
missing input or tensor) are unreachable on consistent graphs. -/
def extract_padding_step (g : NNEFGraph) (i : Nat) : Except NNEFGraph NNEFGraph :=
  match g.operations[i]? with
  | none => .ok g
  | some nnefop =>
    if supported_ops.contains nnefop.name then
      match _get_paddings_st g nnefop with
      | none => .error g
      | some (g0, (in_op_padding, separate_padding)) =>
        let g1 : NNEFGraph :=
          { g0 with operations := g0.operations.set i { nnefop with padding := .tag in_op_padding } }
        if backward_ops.contains nnefop.name && separate_padding.isSome then
          .error g1
        else
          match separate_padding with
          | none => .ok g1
          | some sep =>
            match nnefop.inputs with
            | [] => .error g1
            | inputId :: restInputs =>
              match g1.tensors[inputId]? with
              | none => .error g1
              | some inputT =>
                let newId := g1.tensors.length
                let newTensor : NNEFTensor :=
                  { shape := (inputT.shape.zip sep).map (fun sp => sp.1 + sp.2.1 + sp.2.2),
                    dtype := inputT.dtype, is_constant := false, data := [] }
                let padOp : NNEFOperation :=
                  { name := "box", inputs := [inputId], outputs := [newId],
                    padding := .pairs sep, border := nnefop.border,
                    stride := [], dilation := [],
                    size := List.replicate inputT.shape.length 1,
                    orig_filter_shape := [], orig_input_shape := [] }
                .ok { tensors := g1.tensors ++ [newTensor],
                      operations := (g1.operations ++ [padOp]).set i
                        { nnefop with padding := .tag in_op_padding,
                                      inputs := newId :: restInputs } }
    else
      .ok g

/-- Run `extract_padding_step` over a list of operator indices, stopping
at the first failure. -/
def run_padding_steps : NNEFGraph → List Nat → Except NNEFGraph NNEFGraph
  | g, [] => .ok g
  | g, i :: is =>
    match extract_padding_step g i with
    | .ok g' => run_padding_steps g' is
    | .error g' => .error g'

/-- `_transform_extract_padding` from the source: iterate over a snapshot
of the operator list (operators appended during the pass are not
visited). -/
def _transform_extract_padding (g : NNEFGraph) : Except NNEFGraph NNEFGraph :=
  run_padding_steps g (List.range g.operations.length)

/-- The body of the `_transform_extract_bias_add` loop for the operator
at index `i`: for a conv/deconv with at least three inputs, drop the
third (bias) input; if the bias is a constant `[0]` nothing more happens,
otherwise the operator's output is redirected to a fresh tensor of the
original output's shape and dtype and a `_bias_add` operator from (fresh,
bias) to the original output tensor is appended.  The accessor-failure
fallbacks (missing tensor, non-singleton outputs) are unreachable on
consistent graphs. -/
def extract_bias_step (g : NNEFGraph) (i : Nat) : NNEFGraph :=
  match g.operations[i]? with
  | none => g
  | some nnefop =>
    if (nnefop.name == "conv" || nnefop.name == "deconv")
        && decide (3 ≤ nnefop.inputs.length) then
      match nnefop.inputs[2]? with
      | none => g
      | some biasId =>
        match g.tensors[biasId]? with
        | none => g
        | some bias =>
          let op1 := { nnefop with inputs := nnefop.inputs.take 2 }
          if bias.is_constant && bias.data == [0] then
            { g with operations := g.operations.set i op1 }
          else
            match nnefop.outputs with
            | [outId] =>
              match g.tensors[outId]? with
              | none => { g with operations := g.operations.set i op1 }
              | some output_with_bias =>
                let freshId := g.tensors.length
                let output_without_bias : NNEFTensor :=
                  { shape := output_with_bias.shape, dtype := output_with_bias.dtype,
                    is_constant := false, data := [] }
                let addOp : NNEFOperation :=
                  { name := "_bias_add", inputs := [freshId, biasId], outputs := [outId],
                    padding := .pairs [], border := "", stride := [], dilation := [],
                    size := [], orig_filter_shape := [], orig_input_shape := [] }
                { tensors := g.tensors ++ [output_without_bias],
                  operations := (g.operations.set i { op1 with outputs := [freshId] }) ++ [addOp] }
            | _ => { g with operations := g.operations.set i op1 }
    else
      g

/-- `_transform_extract_bias_add` from the source: iterate over a
snapshot of the operator list. -/
def _transform_extract_bias_add (g : NNEFGraph) : NNEFGraph :=
  (List.range g.operations.length).foldl extract_bias_step g

/-- `pre_conversion_pass` from the source: the padding pass, then the
bias pass.  (The trailing `generate_missing_names` / `assert_consistent`
finalize steps belong to the external IR library and are out of scope.) -/
def pre_conversion_pass (g : NNEFGraph) : Except NNEFGraph NNEFGraph :=
  (_transform_extract_padding g).map _transform_extract_bias_add

/-- A non-constant tensor of the given shape with a generic element type,
for concrete test graphs. -/
def plainTensor (shape : List Int) : NNEFTensor :=
  { shape := shape, dtype := "scalar", is_constant := false, data := [] }

/-- A convolution carrying an explicit nonzero stored padding, for
exercising the padding-extraction rewrite. -/
def opConvPad : NNEFOperation :=
  { name := "conv", inputs := [0, 1], outputs := [2],
    padding := .pairs [(1, 1), (1, 1)], border := "constant",
    stride := [1, 1], dilation := [1, 1], size := [],
    orig_filter_shape := [], orig_input_shape := [] }

/-- A one-operator graph around `opConvPad`. -/
def gConvPad : NNEFGraph :=
  { tensors := [plainTensor [1, 1, 10, 10], plainTensor [1, 1, 3, 3],
      plainTensor [1, 1, 10, 10]],
    operations := [opConvPad] }

/-- A deconvolution (backward kind) carrying an explicit nonzero stored
padding, which the padding pass must reject. -/
def opDeconvPad : NNEFOperation :=
  { name := "deconv", inputs := [0, 1], outputs := [2],
    padding := .pairs [(1, 1), (1, 1)], border := "constant",
    stride := [1, 1], dilation := [1, 1], size := [],
    orig_filter_shape := [], orig_input_shape := [] }

/-- A one-operator graph around `opDeconvPad`. -/
def gDeconvPad : NNEFGraph :=
  { tensors := [plainTensor [1, 1, 10, 10], plainTensor [1, 1, 3, 3],
      plainTensor [1, 1, 10, 10]],
    operations := [opDeconvPad] }

/-- A second backward-kind operator with nonzero stored padding, for the
partial-mutation witness. -/
def opDeconvPad2 : NNEFOperation :=
  { name := "deconv", inputs := [0, 1], outputs := [2],
    padding := .pairs [(2, 2), (2, 2)], border := "constant",
    stride := [1, 1], dilation := [1, 1], size := [],
    orig_filter_shape := [], orig_input_shape := [] }

/-- A one-operator graph around `opDeconvPad2`. -/
def gDeconvPad2 : NNEFGraph :=
  { tensors := [plainTensor [1, 1, 10, 10], plainTensor [1, 1, 3, 3],
      plainTensor [1, 1, 10, 10]],
    operations := [opDeconvPad2] }

/-- A convolution with a non-zero constant bias as third input. -/
def opConvBias : NNEFOperation :=
  { name := "conv", inputs := [0, 1, 2], outputs := [3],
    padding := .tag "VALID", border := "constant",
    stride := [1, 1], dilation := [1, 1], size := [],
    orig_filter_shape := [], orig_input_shape := [] }

/-- A one-operator graph around `opConvBias`; tensor 2 is the constant
bias `[1]`. -/
def gConvBias : NNEFGraph :=
  { tensors := [plainTensor [1, 1, 10, 10], plainTensor [16, 1, 3, 3],
      { shape := [1, 16], dtype := "scalar", is_constant := true, data := [1] },
      plainTensor [1, 16, 8, 8]],
    operations := [opConvBias] }

/-- A convolution whose third input is the constant zero bias `[0]`. -/
def opConvZeroBias : NNEFOperation :=
  { name := "conv", inputs := [0, 1, 2], outputs := [3],
    padding := .tag "VALID", border := "constant",
    stride := [1, 1], dilation := [1, 1], size := [],
    orig_filter_shape := [], orig_input_shape := [] }

/-- A one-operator graph around `opConvZeroBias`; tensor 2 is the
constant bias `[0]`. -/
def gConvZeroBias : NNEFGraph :=
  { tensors := [plainTensor [1, 1, 10, 10], plainTensor [16, 1, 3, 3],
      { shape := [1, 16], dtype := "scalar", is_constant := true, data := [0] },
      plainTensor [1, 16, 8, 8]],
    operations := [opConvZeroBias] }

/-- A stride-1, dilation-1, filter-size-1 convolution with empty stored
padding and border `"constant"` and equal input/output spatial shapes. -/
def opConvSameBorder : NNEFOperation :=
  { name := "conv", inputs := [0, 1], outputs := [2],
    padding := .pairs [], border := "constant",
    stride := [1, 1], dilation := [1, 1], size := [],
    orig_filter_shape := [], orig_input_shape := [] }

/-- A one-operator graph around `opConvSameBorder`. -/
def gConvSameBorder : NNEFGraph :=
  { tensors := [plainTensor [1, 1, 10, 10], plainTensor [1, 1, 1, 1],
      plainTensor [1, 1, 10, 10]],
    operations := [opConvSameBorder] }

/-- Like `opConvSameBorder` but with border `"ignore"`, so the decision
falls through to `"VALID"`. -/
def opConvValidB : NNEFOperation :=
  { name := "conv", inputs := [0, 1], outputs := [2],
    padding := .pairs [], border := "ignore",
    stride := [1, 1], dilation := [1, 1], size := [],
    orig_filter_shape := [], orig_input_shape := [] }

/-- A one-operator graph around `opConvValidB`. -/
def gConvValidB : NNEFGraph :=
  { tensors := [plainTensor [1, 1, 10, 10], plainTensor [1, 1, 1, 1],
      plainTensor [1, 1, 10, 10]],
    operations := [opConvValidB] }

/-- A pooling operator with empty stored padding and border `"ignore"`. -/
def opPoolIgnore : NNEFOperation :=
  { name := "max_pool", inputs := [0], outputs := [1],
    padding := .pairs [], border := "ignore",
    stride := [1, 1, 1, 1], dilation := [1, 1, 1, 1], size := [1, 1, 3, 3],
    orig_filter_shape := [], orig_input_shape := [] }

/-- A one-operator graph around `opPoolIgnore`. -/
def gPoolIgnore : NNEFGraph :=
  { tensors := [plainTensor [1, 1, 10, 10], plainTensor [1, 1, 10, 10]],
    operations := [opPoolIgnore] }

/-- An average-pooling operator for the resolver frame witness. -/
def opPoolFrame : NNEFOperation :=
  { name := "avg_pool", inputs := [0], outputs := [1],
    padding := .pairs [], border := "ignore",
    stride := [1, 1, 1, 1], dilation := [1, 1, 1, 1], size := [1, 1, 3, 3],
    orig_filter_shape := [], orig_input_shape := [] }

/-- A one-operator graph around `opPoolFrame`. -/
def gPoolFrame : NNEFGraph :=
  { tensors := [plainTensor [1, 1, 10, 10], plainTensor [1, 1, 10, 10]],
    operations := [opPoolFrame] }

/-- A pooling-gradient (backward kind) operator with empty stored padding
and border `"ignore"`. -/
def opPoolGrad : NNEFOperation :=
  { name := "avg_pool_grad", inputs := [0], outputs := [1],
    padding := .pairs [], border := "ignore",
    stride := [1, 1, 1, 1], dilation := [1, 1, 1, 1], size := [1, 1, 3, 3],
    orig_filter_shape := [], orig_input_shape := [1, 1, 10, 10] }

/-- A one-operator graph around `opPoolGrad`. -/
def gPoolGrad : NNEFGraph :=
  { tensors := [plainTensor [1, 1, 10, 10], plainTensor [1, 1, 10, 10]],
    operations := [opPoolGrad] }


theorem get_paddings_st_graph_eq {g g' : NNEFGraph} {op : NNEFOperation}
    {d : String × Option (List (Int × Int))}
    (h : _get_paddings_st g op = some (g', d)) : g' = g := by
  unfold _get_paddings_st at h
  split at h
  · exact Option.noConfusion h
  · repeat' split at h
    all_goals simp_all

theorem get_paddings_st_tag {g g' : NNEFGraph} {op : NNEFOperation}
    {tag : String} {sep : Option (List (Int × Int))}
    (h : _get_paddings_st g op = some (g', (tag, sep))) :
    tag = "VALID" ∨ tag = "SAME" := by
  unfold _get_paddings_st at h
  split at h
  · exact Option.noConfusion h
  · repeat' split at h
    all_goals simp_all

theorem get_paddings_st_sep_valid {g g' : NNEFGraph} {op : NNEFOperation}
    {tag : String} {sep : List (Int × Int)}
    (h : _get_paddings_st g op = some (g', (tag, some sep))) : tag = "VALID" := by
  unfold _get_paddings_st at h
  split at h
  · exact Option.noConfusion h
  · repeat' split at h
    all_goals simp_all

theorem get_paddings_st_isSome {g : NNEFGraph} {op : NNEFOperation}
    {l : List (Int × Int)} (hp : op.padding = .pairs l) :
    (_get_paddings_st g op).isSome = true := by
  unfold _get_paddings_st
  rw [hp]
  cases l with
  | nil =>
    split_ifs <;> simp_all [recursive_any_pos] <;> (try split_ifs) <;> simp_all
  | cons a as =>
    cases hr : recursive_any_pos (a :: as) with
    | false => simp [hr]
    | true =>
      cases hc : strContains op.name "conv" with
      | false => simp [hr, hc]
      | true => simp [hr, hc]

theorem get_paddings_st_total {g : NNEFGraph} {op : NNEFOperation}
    {l : List (Int × Int)} (hp : op.padding = .pairs l) :
    ∃ d, _get_paddings_st g op = some (g, d) := by
  obtain ⟨⟨g1, d⟩, hr⟩ := Option.isSome_iff_exists.mp (get_paddings_st_isSome hp (g := g))
  exact ⟨d, (get_paddings_st_graph_eq hr) ▸ hr⟩

theorem backward_mem_supported {s : String} (h : backward_ops.contains s = true) :
    supported_ops.contains s = true := by
  have h' : s ∈ backward_ops := by simpa using h
  simp only [supported_ops]
  simpa using List.mem_append_right forward_ops h'

theorem floorHalf_eq_floor (t : Int) : floorHalf t = ⌊(t : ℚ) / 2⌋ := by
  unfold floorHalf
  rw [Int.fdiv_eq_ediv t (by norm_num)]
  rw [show ((2 : ℚ)) = ((2 : ℕ) : ℚ) by norm_num, Rat.floor_intCast_div_natCast t 2]
  rfl

theorem ceilHalf_eq_ceil (t : Int) : ceilHalf t = ⌈(t : ℚ) / 2⌉ := by
  unfold ceilHalf
  rw [Int.fdiv_eq_ediv (-t) (by norm_num)]
  have h : ⌊-((t : ℚ) / 2)⌋ = -⌈(t : ℚ) / 2⌉ := Int.floor_neg
  have h2 : ⌊-((t : ℚ) / 2)⌋ = (-t) / 2 := by
    rw [← neg_div, ← Int.cast_neg, show ((2 : ℚ)) = ((2 : ℕ) : ℚ) by norm_num,
      Rat.floor_intCast_div_natCast (-t) 2]
    rfl
  omega

theorem floorHalf_add_ceilHalf (t : Int) : floorHalf t + ceilHalf t = t := by
  unfold floorHalf ceilHalf
  rw [Int.fdiv_eq_ediv t (by norm_num), Int.fdiv_eq_ediv (-t) (by norm_num)]
  omega

theorem ceilHalf_sub_floorHalf (t : Int) :
    ceilHalf t - floorHalf t = 0 ∨ ceilHalf t - floorHalf t = 1 := by
  unfold floorHalf ceilHalf
  rw [Int.fdiv_eq_ediv t (by norm_num), Int.fdiv_eq_ediv (-t) (by norm_num)]
  omega

/-- C2: for all integer upscaled size `U`, downscaled size `D`, filter
size `F`, stride `S` and dilation `L`, `_calculate_padding_elem` returns
exactly `(floor(total/2), ceil(total/2))` for
`total = (D - 1) * S + ((F - 1) * L + 1) - U`, and this pair satisfies
`before + after = total` and `after - before ∈ {0, 1}`. -/
theorem calculate_padding_elem_floor_ceil (U D F S L : Int) :
    (_calculate_padding_elem U D F S L).1 =
        ⌊(((D - 1) * S + ((F - 1) * L + 1) - U : Int) : ℚ) / 2⌋ ∧
    (_calculate_padding_elem U D F S L).2 =
        ⌈(((D - 1) * S + ((F - 1) * L + 1) - U : Int) : ℚ) / 2⌉ ∧
    (_calculate_padding_elem U D F S L).1 + (_calculate_padding_elem U D F S L).2 =
        (D - 1) * S + ((F - 1) * L + 1) - U ∧
    ((_calculate_padding_elem U D F S L).2 - (_calculate_padding_elem U D F S L).1 = 0 ∨
      (_calculate_padding_elem U D F S L).2 - (_calculate_padding_elem U D F S L).1 = 1) := by
  refine ⟨floorHalf_eq_floor _, ceilHalf_eq_ceil _, floorHalf_add_ceilHalf _,
    ceilHalf_sub_floorHalf _⟩

/-- C8: for an operator of a supported kind whose stored padding
attribute is still in list form, the padding resolver returns a padding
decision and leaves the graph exactly as it was given: computing the
decision mutates no tensor, operator, attribute or wiring. -/
theorem resolver_returns_decision_without_mutation
    (g : NNEFGraph) (op : NNEFOperation) (l : List (Int × Int))
    (hs : supported_ops.contains op.name = true)
    (hp : op.padding = .pairs l) :
    ∃ tag sep, _get_paddings_st g op = some (g, (tag, sep)) := by
  obtain ⟨⟨tag, sep⟩, h⟩ := get_paddings_st_total (g := g) hp
  exact ⟨tag, sep, h⟩

/-- C8 witness: the resolver on a concrete pooling graph returns a
decision paired with the untouched graph. -/
theorem resolver_returns_decision_without_mutation_witness :
    supported_ops.contains opPoolFrame.name = true ∧
    opPoolFrame.padding = .pairs [] ∧
    ∃ tag sep, _get_paddings_st gPoolFrame opPoolFrame = some (gPoolFrame, (tag, sep)) :=
  ⟨by decide, rfl,
    resolver_returns_decision_without_mutation gPoolFrame opPoolFrame [] (by decide) rfl⟩

/-- C7: a supported pooling-kind operator with empty stored padding and
border-handling "ignore" resolves to exactly ("SAME", no descriptor),
and the padding pass performs no graph mutation on it beyond writing the
"SAME" tag into its padding attribute. -/
theorem pool_ignore_same_no_mutation
    (g : NNEFGraph) (i : Nat) (op : NNEFOperation)
    (hop : g.operations[i]? = some op)
    (hs : supported_ops.contains op.name = true)
    (hpool : strContains op.name "pool" = true)
    (hpad : op.padding = .pairs [])
    (hb : op.border = "ignore") :
    _get_paddings_st g op = some (g, ("SAME", none)) ∧
    extract_padding_step g i = .ok
      { g with operations := g.operations.set i { op with padding := .tag "SAME" } } := by
  have hlow : (strLower "ignore" == "ignore") = true := by decide
  have hdec : _get_paddings_st g op = some (g, ("SAME", none)) := by
    unfold _get_paddings_st
    rw [hpad, hb]
    simp [hpool, hlow]
  refine ⟨hdec, ?_⟩
  simp only [extract_padding_step, hop, hs, hdec]
  simp

/-- C7 witness: the concrete max-pool graph resolves to "SAME" and the
pass only rewrites the padding attribute. -/
theorem pool_ignore_same_no_mutation_witness :
    gPoolIgnore.operations[0]? = some opPoolIgnore ∧
    strContains opPoolIgnore.name "pool" = true ∧
    opPoolIgnore.border = "ignore" ∧
    _get_paddings_st gPoolIgnore opPoolIgnore = some (gPoolIgnore, ("SAME", none)) ∧
    extract_padding_step gPoolIgnore 0 = .ok
      { gPoolIgnore with operations :=
          gPoolIgnore.operations.set 0 ({ opPoolIgnore with padding := .tag "SAME" }) } := by
  have h := pool_ignore_same_no_mutation gPoolIgnore 0 opPoolIgnore rfl
    (by decide) (by decide) rfl rfl
  exact ⟨rfl, by decide, rfl, h.1, h.2⟩

/-- C9: a backward-kind operator with empty stored padding whose name
contains "pool" and whose border is "ignore" (or contains "conv" with
border "constant") resolves to ("SAME", no descriptor), the pass writes
the tag, and the gradient-kind assertion does not fire. -/
theorem backward_empty_padding_resolves_same
    (g : NNEFGraph) (i : Nat) (op : NNEFOperation)
    (hop : g.operations[i]? = some op)
    (hback : backward_ops.contains op.name = true)
    (hpad : op.padding = .pairs [])
    (hcase : (strContains op.name "pool" = true ∧ strLower op.border = "ignore")
      ∨ (strContains op.name "conv" = true ∧ strLower op.border = "constant")) :
    _get_paddings_st g op = some (g, ("SAME", none)) ∧
    extract_padding_step g i = .ok
      { g with operations := g.operations.set i { op with padding := .tag "SAME" } } := by
  have hs := backward_mem_supported hback
  have hci : (("constant" : String) == "ignore") = false := by decide
  have hdec : _get_paddings_st g op = some (g, ("SAME", none)) := by
    unfold _get_paddings_st
    rw [hpad]
    rcases hcase with ⟨hpool, hb⟩ | ⟨hconv, hb⟩
    · simp [hpool, hb]
    · simp [hconv, hb, hci]
  refine ⟨hdec, ?_⟩
  simp only [extract_padding_step, hop, hs, hdec]
  simp

/-- C9 witness: the concrete avg-pool-gradient graph with empty stored
padding and border "ignore" succeeds with the "SAME" decision. -/
theorem backward_empty_padding_resolves_same_witness :
    gPoolGrad.operations[0]? = some opPoolGrad ∧
    backward_ops.contains opPoolGrad.name = true ∧
    opPoolGrad.padding = .pairs [] ∧
    _get_paddings_st gPoolGrad opPoolGrad = some (gPoolGrad, ("SAME", none)) ∧
    extract_padding_step gPoolGrad 0 = .ok
      { gPoolGrad with operations :=
          gPoolGrad.operations.set 0 ({ opPoolGrad with padding := .tag "SAME" }) } := by
  have h := backward_empty_padding_resolves_same gPoolGrad 0 opPoolGrad rfl
    (by decide) rfl (Or.inl ⟨by decide, by decide⟩)
  exact ⟨rfl, by decide, rfl, h.1, h.2⟩

/-- C3: for a backward/gradient-kind operator the padding pass never
succeeds with an explicit separate padding descriptor: whenever the step
succeeds the decision had reduced to a bare "VALID" or "SAME" tag with no
descriptor, and whenever the resolver produces a descriptor the step
raises (the gradient-kind assertion) instead of silently truncating. -/
theorem backward_no_separate_descriptor
    (g : NNEFGraph) (i : Nat) (op : NNEFOperation)
    (hop : g.operations[i]? = some op)
    (hback : backward_ops.contains op.name = true) :
    (∀ g', extract_padding_step g i = .ok g' →
      ∃ tag, _get_paddings_st g op = some (g, (tag, none)) ∧
        (tag = "VALID" ∨ tag = "SAME")) ∧
    (∀ gd tag sep, _get_paddings_st g op = some (gd, (tag, some sep)) →
      ∃ ge, extract_padding_step g i = .error ge) := by
  have hs := backward_mem_supported hback
  constructor
  · intro g' hok
    simp only [extract_padding_step, hop, hs, if_true] at hok
    cases hres : _get_paddings_st g op with
    | none => rw [hres] at hok; exact absurd hok (by simp)
    | some r =>
      obtain ⟨gd, tag, sep⟩ := r
      have hgd : gd = g := get_paddings_st_graph_eq hres
      subst hgd
      rw [hres] at hok
      cases sep with
      | some s =>
        have hb' : op.name ∈ backward_ops := by simpa using hback
        simp [hb'] at hok
      | none => exact ⟨tag, rfl, get_paddings_st_tag hres⟩
  · intro gd tag sep hres
    have hgd : gd = g := get_paddings_st_graph_eq hres
    rw [hgd] at hres
    have hb' : op.name ∈ backward_ops := by simpa using hback
    exact ⟨{ g with operations := g.operations.set i ({ op with padding := .tag tag }) },
      by simp only [extract_padding_step, hop, hs, if_true, hres]; simp [hb']⟩

/-- C3 witness: a concrete deconvolution with nonzero stored padding gets
a descriptor from the resolver and the pass fails on it. -/
theorem backward_no_separate_descriptor_witness :
    gDeconvPad.operations[0]? = some opDeconvPad ∧
    backward_ops.contains opDeconvPad.name = true ∧
    _get_paddings_st gDeconvPad opDeconvPad =
      some (gDeconvPad, ("VALID", some [(0, 0), (0, 0), (1, 1), (1, 1)])) ∧
    ∃ ge, extract_padding_step gDeconvPad 0 = .error ge := by
  have h := (backward_no_separate_descriptor gDeconvPad 0 opDeconvPad rfl (by decide)).2
    gDeconvPad "VALID" [(0, 0), (0, 0), (1, 1), (1, 1)] (by decide)
  exact ⟨rfl, by decide, by decide, h⟩

/-- C10: when a backward-kind operator's resolver result carries a
descriptor, the pass first overwrites the operator's padding attribute
with the "VALID" tag and only then fails: the error state is the input
graph with exactly that one attribute overwritten, so the original
list-form padding value is lost. -/
theorem backward_failure_after_padding_overwrite
    (g : NNEFGraph) (i : Nat) (op : NNEFOperation) (gd : NNEFGraph)
    (tag : String) (sep l : List (Int × Int))
    (hop : g.operations[i]? = some op)
    (hback : backward_ops.contains op.name = true)
    (hpad : op.padding = .pairs l)
    (hres : _get_paddings_st g op = some (gd, (tag, some sep))) :
    tag = "VALID" ∧
    extract_padding_step g i = .error
      { g with operations := g.operations.set i ({ op with padding := .tag "VALID" }) } ∧
    (.tag "VALID" : PaddingAttr) ≠ op.padding := by
  have hs := backward_mem_supported hback
  have hgd : gd = g := get_paddings_st_graph_eq hres
  rw [hgd] at hres
  have htag := get_paddings_st_sep_valid hres
  subst htag
  have hb' : op.name ∈ backward_ops := by simpa using hback
  refine ⟨rfl, ?_, ?_⟩
  · simp only [extract_padding_step, hop, hs, if_true, hres]
    simp [hb']
  · rw [hpad]
    exact fun h => PaddingAttr.noConfusion h

/-- C10 witness: the concrete deconvolution graph fails with its padding
attribute already overwritten by "VALID". -/
theorem backward_failure_after_padding_overwrite_witness :
    gDeconvPad2.operations[0]? = some opDeconvPad2 ∧
    backward_ops.contains opDeconvPad2.name = true ∧
    _get_paddings_st gDeconvPad2 opDeconvPad2 =
      some (gDeconvPad2, ("VALID", some [(0, 0), (0, 0), (2, 2), (2, 2)])) ∧
    extract_padding_step gDeconvPad2 0 = .error
      { gDeconvPad2 with operations :=
          gDeconvPad2.operations.set 0 ({ opDeconvPad2 with padding := .tag "VALID" }) } ∧
    (.tag "VALID" : PaddingAttr) ≠ opDeconvPad2.padding := by
  have h := backward_failure_after_padding_overwrite gDeconvPad2 0 opDeconvPad2 gDeconvPad2
    "VALID" [(0, 0), (0, 0), (2, 2), (2, 2)] [(2, 2), (2, 2)] rfl (by decide) rfl (by decide)
  exact ⟨rfl, by decide, by decide, h.2.1, h.2.2⟩

/-- C5: a conv/deconv operator with at least three inputs whose third
input is a constant tensor with value exactly [0] is truncated to exactly
its first two inputs and nothing else changes: no addition operator is
created and the output tensor identity is untouched. -/
theorem bias_split_zero_bias
    (g : NNEFGraph) (i : Nat) (op : NNEFOperation) (biasId : Nat) (bias : NNEFTensor)
    (hop : g.operations[i]? = some op)
    (hname : op.name = "conv" ∨ op.name = "deconv")
    (hlen : 3 ≤ op.inputs.length)
    (hbid : op.inputs[2]? = some biasId)
    (hbt : g.tensors[biasId]? = some bias)
    (hconst : bias.is_constant = true) (hdata : bias.data = [0]) :
    extract_bias_step g i =
      { g with operations := g.operations.set i ({ op with inputs := op.inputs.take 2 }) } ∧
    (op.inputs.take 2).length = 2 := by
  have hcond : ((op.name == "conv" || op.name == "deconv")
      && decide (3 ≤ op.inputs.length)) = true := by
    rcases hname with h | h <;> simp [h, hlen]
  constructor
  · simp only [extract_bias_step, hop, hcond, if_true, hbid, hbt, hconst, hdata]
    simp
  · rw [List.length_take]
    omega

/-- C5 witness: the concrete conv-with-zero-bias graph is truncated to
two inputs with no other change. -/
theorem bias_split_zero_bias_witness :
    gConvZeroBias.operations[0]? = some opConvZeroBias ∧
    3 ≤ opConvZeroBias.inputs.length ∧
    extract_bias_step gConvZeroBias 0 =
      { gConvZeroBias with operations :=
          (gConvZeroBias.operations.set 0
            { opConvZeroBias with inputs := opConvZeroBias.inputs.take 2 }) } ∧
    (opConvZeroBias.inputs.take 2).length = 2 := by
  have h := bias_split_zero_bias gConvZeroBias 0 opConvZeroBias 2
    { shape := [1, 16], dtype := "scalar", is_constant := true, data := [0] }
    rfl (Or.inl rfl) (by decide) rfl rfl rfl rfl
  exact ⟨rfl, by decide, h.1, h.2⟩

/-- C4: splitting a non-identity bias off a conv/deconv with at least
three inputs leaves the operator with its first two inputs and a fresh
distinct output tensor of the original output's shape and element type,
and appends an addition operator from (fresh, bias) to the original
output tensor; no other operator or existing tensor changes. -/
theorem bias_split_nonzero_bias
    (g : NNEFGraph) (i : Nat) (op : NNEFOperation) (biasId outId : Nat)
    (bias outT : NNEFTensor)
    (hop : g.operations[i]? = some op)
    (hname : op.name = "conv" ∨ op.name = "deconv")
    (hlen : 3 ≤ op.inputs.length)
    (hbid : op.inputs[2]? = some biasId)
    (hbt : g.tensors[biasId]? = some bias)
    (hnz : ¬(bias.is_constant = true ∧ bias.data = [0]))
    (hout : op.outputs = [outId])
    (hot : g.tensors[outId]? = some outT)
    (hi : i < g.operations.length) (ho : outId < g.tensors.length) :
    (extract_bias_step g i).operations[i]? =
      some ({ op with inputs := op.inputs.take 2, outputs := [g.tensors.length] }) ∧
    (op.inputs.take 2).length = 2 ∧
    (extract_bias_step g i).tensors[g.tensors.length]? =
      some { shape := outT.shape, dtype := outT.dtype, is_constant := false, data := [] } ∧
    g.tensors.length ≠ outId ∧
    (extract_bias_step g i).operations[g.operations.length]? =
      some { name := "_bias_add", inputs := [g.tensors.length, biasId], outputs := [outId],
             padding := .pairs [], border := "", stride := [], dilation := [],
             size := [], orig_filter_shape := [], orig_input_shape := [] } ∧
    (∀ j, j ≠ i → j < g.operations.length →
      (extract_bias_step g i).operations[j]? = g.operations[j]?) ∧
    (∀ t, t < g.tensors.length →
      (extract_bias_step g i).tensors[t]? = g.tensors[t]?) := by
  have hcond : ((op.name == "conv" || op.name == "deconv")
      && decide (3 ≤ op.inputs.length)) = true := by
    rcases hname with h | h <;> simp [h, hlen]
  have hzb : (bias.is_constant && bias.data == [0]) = false := by
    by_cases hc : bias.is_constant = true ∧ bias.data = [0]
    · exact absurd hc hnz
    · push_neg at hc
      cases hcb : bias.is_constant with
      | false => simp
      | true => simp [beq_eq_false_iff_ne, hc hcb]
  have hstep : extract_bias_step g i =
      { tensors := g.tensors ++
          [{ shape := outT.shape, dtype := outT.dtype, is_constant := false, data := [] }],
        operations := (g.operations.set i
          ({ op with inputs := op.inputs.take 2, outputs := [g.tensors.length] })) ++
          [{ name := "_bias_add", inputs := [g.tensors.length, biasId], outputs := [outId],
             padding := .pairs [], border := "", stride := [], dilation := [],
             size := [], orig_filter_shape := [], orig_input_shape := [] }] } := by
    simp only [extract_bias_step, hop, hcond, if_true, hbid, hbt, hzb, hout, hot]
    simp
  rw [hstep]
  have hsetlen : (g.operations.set i
      ({ op with inputs := op.inputs.take 2, outputs := [g.tensors.length] })).length =
      g.operations.length := by simp
  refine ⟨?_, ?_, ?_, ?_, ?_, ?_, ?_⟩
  · rw [List.getElem?_append, if_pos (by simpa [hsetlen] using hi)]
    exact List.getElem?_set_eq_of_lt _ hi
  · rw [List.length_take]; omega
  · exact List.getElem?_concat_length _ _
  · omega
  · rw [show g.operations.length = (g.operations.set i
      ({ op with inputs := op.inputs.take 2, outputs := [g.tensors.length] })).length
      from hsetlen.symm]
    exact List.getElem?_concat_length _ _
  · intro j hji hj
    rw [List.getElem?_append, if_pos (by simpa [hsetlen] using hj)]
    exact List.getElem?_set_ne (fun h => hji h.symm)
  · intro t ht
    rw [List.getElem?_append, if_pos ht]

/-- C4 witness: the concrete conv-with-bias graph, after splitting, has a
rewired conv, a fresh distinct output tensor, and a `_bias_add` operator
onto the original output tensor. -/
theorem bias_split_nonzero_bias_witness :
    gConvBias.operations[0]? = some opConvBias ∧
    (extract_bias_step gConvBias 0).operations[0]? =
      some ({ opConvBias with
          inputs := opConvBias.inputs.take 2, outputs := [gConvBias.tensors.length] }) ∧
    (opConvBias.inputs.take 2).length = 2 ∧
    (extract_bias_step gConvBias 0).tensors[gConvBias.tensors.length]? =
      some { shape := [1, 16, 8, 8], dtype := "scalar", is_constant := false, data := [] } ∧
    gConvBias.tensors.length ≠ 3 ∧
    (extract_bias_step gConvBias 0).operations[gConvBias.operations.length]? =
      some { name := "_bias_add", inputs := [gConvBias.tensors.length, 2], outputs := [3],
             padding := .pairs [], border := "", stride := [], dilation := [],
             size := [], orig_filter_shape := [], orig_input_shape := [] } := by
  have h := bias_split_nonzero_bias gConvBias 0 opConvBias 2 3
    { shape := [1, 16], dtype := "scalar", is_constant := true, data := [1] }
    (plainTensor [1, 16, 8, 8])
    rfl (Or.inl rfl) (by decide) rfl rfl (by decide) rfl rfl (by decide) (by decide)
  exact ⟨rfl, h.1, h.2.1, h.2.2.1, h.2.2.2.1, h.2.2.2.2.1⟩

theorem zip_map_pad_getElem (xs : List Int) (ps : List (Int × Int)) (j : Nat)
    (hj : j < xs.length) (hlen : ps.length = xs.length) :
    ((xs.zip ps).map (fun sp => sp.1 + sp.2.1 + sp.2.2))[j]? =
      some (xs.getD j 0 + (ps.getD j (0, 0)).1 + (ps.getD j (0, 0)).2) := by
  induction xs generalizing ps j with
  | nil => simp at hj
  | cons x xs ih =>
    cases ps with
    | nil => simp at hlen
    | cons p ps =>
      cases j with
      | zero => simp
      | succ j =>
        have h := ih ps j (by simpa using hj) (by simpa using hlen)
        simpa using h

/-- C1: when a supported operator's padding decision carries an explicit
descriptor and the padding pass succeeds on it, the resulting graph
contains a new `box` padding operator (window size 1 in every dimension,
the consumer's border attribute, the descriptor as padding) whose fresh
output tensor has the input's element type and, in every dimension, the
input extent enlarged by before + after; the consumer's first input is
rewired to that tensor and its remaining inputs are unchanged. -/
theorem extract_padding_inserts_box
    (g g' : NNEFGraph) (i : Nat) (op : NNEFOperation) (tag : String)
    (sep : List (Int × Int)) (inputId : Nat) (rest : List Nat) (inT : NNEFTensor)
    (hop : g.operations[i]? = some op)
    (hsupp : supported_ops.contains op.name = true)
    (hdec : _get_paddings_st g op = some (g, (tag, some sep)))
    (hin : op.inputs = inputId :: rest)
    (hT : g.tensors[inputId]? = some inT)
    (hlen : sep.length = inT.shape.length)
    (hi : i < g.operations.length)
    (hok : extract_padding_step g i = .ok g') :
    g'.operations.length = g.operations.length + 1 ∧
    g'.operations[g.operations.length]? =
      some { name := "box", inputs := [inputId], outputs := [g.tensors.length],
             padding := .pairs sep, border := op.border, stride := [], dilation := [],
             size := List.replicate inT.shape.length 1,
             orig_filter_shape := [], orig_input_shape := [] } ∧
    g'.tensors.length = g.tensors.length + 1 ∧
    (g'.tensors[g.tensors.length]?).map (fun t => t.dtype) = some inT.dtype ∧
    (∀ j, j < inT.shape.length →
      (g'.tensors[g.tensors.length]?).bind (fun t => t.shape[j]?) =
        some (inT.shape.getD j 0 + (sep.getD j (0, 0)).1 + (sep.getD j (0, 0)).2)) ∧
    g'.operations[i]? =
      some ({ op with padding := .tag tag, inputs := g.tensors.length :: rest }) := by
  by_cases hb : backward_ops.contains op.name = true
  · exfalso
    have hb' : op.name ∈ backward_ops := by simpa using hb
    simp only [extract_padding_step, hop, hsupp, if_true, hdec] at hok
    simp [hb'] at hok
  · have hbf : backward_ops.contains op.name = false := by
      cases hx : backward_ops.contains op.name with
      | false => rfl
      | true => exact absurd hx hb
    have hstep : extract_padding_step g i = .ok
        { tensors := g.tensors ++
            [{ shape := (inT.shape.zip sep).map (fun sp => sp.1 + sp.2.1 + sp.2.2),
               dtype := inT.dtype, is_constant := false, data := [] }],
          operations :=
            ((g.operations.set i ({ op with padding := .tag tag })) ++
              [({ name := "box", inputs := [inputId], outputs := [g.tensors.length],
                  padding := .pairs sep, border := op.border, stride := [], dilation := [],
                  size := List.replicate inT.shape.length 1,
                  orig_filter_shape := [], orig_input_shape := [] } : NNEFOperation)]).set i
              ({ op with padding := .tag tag, inputs := g.tensors.length :: rest }) } := by
      simp only [extract_padding_step, hop, hsupp, if_true, hdec, hbf, hin, hT]
      simp
    rw [hstep] at hok
    have hg' := (Except.ok.inj hok).symm
    subst hg'
    have hsetlen : (g.operations.set i ({ op with padding := .tag tag })).length =
        g.operations.length := by simp
    refine ⟨by simp, ?_, by simp, ?_, ?_, ?_⟩
    · rw [List.getElem?_set_ne (by omega)]
      rw [show g.operations.length =
        (g.operations.set i ({ op with padding := .tag tag })).length from hsetlen.symm]
      exact List.getElem?_concat_length _ _
    · rw [List.getElem?_concat_length _ _]
      rfl
    · intro j hj
      rw [List.getElem?_concat_length _ _]
      simpa using zip_map_pad_getElem inT.shape sep j hj hlen
    · exact List.getElem?_set_eq_of_lt _ (by simp; omega)

/-- C1 witness: on the concrete conv graph with descriptor
[(0,0),(0,0),(1,1),(1,1)], the pass inserts the box operator with a
[1,1,12,12]-shaped fresh tensor and rewires the conv's first input. -/
theorem extract_padding_inserts_box_witness :
    _get_paddings_st gConvPad opConvPad =
      some (gConvPad, ("VALID", some [(0, 0), (0, 0), (1, 1), (1, 1)])) ∧
    ∃ g', extract_padding_step gConvPad 0 = .ok g' ∧
      g'.operations.length = 2 ∧
      g'.operations[1]? =
        some { name := "box", inputs := [0], outputs := [3],
               padding := .pairs [(0, 0), (0, 0), (1, 1), (1, 1)], border := "constant",
               stride := [], dilation := [], size := [1, 1, 1, 1],
               orig_filter_shape := [], orig_input_shape := [] } ∧
      (g'.tensors[3]?).map (fun t => t.dtype) = some "scalar" ∧
      g'.operations[0]? = some ({ opConvPad with padding := .tag "VALID", inputs := [3, 1] }) := by
  refine ⟨by decide, ?_⟩
  obtain ⟨g', hok⟩ : ∃ x, extract_padding_step gConvPad 0 = .ok x := ⟨_, rfl⟩
  have h := extract_padding_inserts_box gConvPad g' 0 opConvPad "VALID"
    [(0, 0), (0, 0), (1, 1), (1, 1)] 0 [1] (plainTensor [1, 1, 10, 10])
    rfl (by decide) (by decide) rfl rfl (by decide) (by decide) hok
  exact ⟨g', hok, h.1, h.2.1, h.2.2.2.1, h.2.2.2.2.2⟩

theorem calculate_padding_elem_eq_zero (u : Int) :
    _calculate_padding_elem u u 1 1 1 = (0, 0) := by
  simp only [_calculate_padding_elem]
  rw [show (u - 1) * 1 + ((1 - 1) * 1 + 1) - u = 0 from by ring]
  rfl

theorem calculate_padding_eq_shapes_zero (us : List Int) (k : Nat) :
    ∀ p ∈ _calculate_padding us us (List.replicate k 1) (List.replicate k 1)
      (List.replicate k 1), p = (0, 0) := by
  induction us generalizing k with
  | nil => intro p hp; simp [_calculate_padding] at hp
  | cons u us ih =>
    intro p hp
    cases k with
    | zero => simp [_calculate_padding, List.replicate] at hp
    | succ k =>
      simp only [List.replicate, _calculate_padding, List.mem_cons] at hp
      rcases hp with rfl | hp
      · exact calculate_padding_elem_eq_zero u
      · exact ih k p hp

/-- C6 counterexample: a convolution with stride 1, dilation 1, filter
size 1 and equal input/output spatial shapes, with empty stored padding
and border "constant", has all-zero computed padding yet resolves to
("SAME", none) rather than ("VALID", none): the claimed "reduces to
valid" fails on this input. -/
theorem conv_filter_one_valid_counterexample :
    opConvSameBorder.name = "conv" ∧
    opConvSameBorder.stride = [1, 1] ∧
    opConvSameBorder.dilation = [1, 1] ∧
    (gConvSameBorder.tensors[1]?).map (fun t => t.shape.drop 2) = some [1, 1] ∧
    (gConvSameBorder.tensors[0]?).map (fun t => t.shape.drop 2) =
      (gConvSameBorder.tensors[2]?).map (fun t => t.shape.drop 2) ∧
    _calculate_padding [10, 10] [10, 10] [1, 1] [1, 1] [1, 1] = [(0, 0), (0, 0)] ∧
    _get_paddings_st gConvSameBorder opConvSameBorder =
      some (gConvSameBorder, ("SAME", none)) ∧
    (("SAME", none) : String × Option (List (Int × Int))) ≠ ("VALID", none) := by
  decide

/-- C6 (amended): for a convolution with stride 1, dilation 1 and filter
size 1 on every spatial dimension and equal input/output spatial shapes,
the computed padding is all-zero, and the decision is ("VALID", none) —
except when the stored padding attribute is empty and the border is
"constant", in which case the empty-padding classification fires first
and the decision is ("SAME", none). -/
theorem conv_filter_one_padding_decision
    (g : NNEFGraph) (op : NNEFOperation) (inT fT outT : NNEFTensor) (k : Nat)
    (l : List (Int × Int))
    (hname : op.name = "conv")
    (hpad : op.padding = .pairs l)
    (hnp : recursive_any_pos l = false)
    (hs : op.stride = List.replicate k 1)
    (hd : op.dilation = List.replicate k 1)
    (hfil : fT.shape.drop 2 = List.replicate k 1)
    (hmatch : outT.shape.drop 2 = inT.shape.drop 2) :
    (∀ p ∈ _calculate_padding (inT.shape.drop 2) (outT.shape.drop 2)
      (fT.shape.drop 2) op.stride op.dilation, p = (0, 0)) ∧
    (l = [] → strLower op.border = "constant" →
      _get_paddings_st g op = some (g, ("SAME", none))) ∧
    (l = [] → strLower op.border ≠ "constant" →
      _get_paddings_st g op = some (g, ("VALID", none))) ∧
    (l ≠ [] → _get_paddings_st g op = some (g, ("VALID", none))) := by
  have hpoolf : strContains op.name "pool" = false := by rw [hname]; decide
  have hconvt : strContains op.name "conv" = true := by rw [hname]; decide
  refine ⟨?_, ?_, ?_, ?_⟩
  · rw [hmatch, hfil, hs, hd]
    exact calculate_padding_eq_shapes_zero (inT.shape.drop 2) k
  · intro hl hb
    subst hl
    unfold _get_paddings_st
    rw [hpad]
    simp [hpoolf, hconvt, hb]
  · intro hl hb
    subst hl
    have hbf : (strLower op.border == "constant") = false := by
      simpa [beq_eq_false_iff_ne] using hb
    unfold _get_paddings_st
    rw [hpad]
    simp [hpoolf, hconvt, hbf, recursive_any_pos]
  · intro hl
    obtain ⟨a, as, rfl⟩ := List.exists_cons_of_ne_nil hl
    unfold _get_paddings_st
    rw [hpad]
    simp [hnp]

/-- C6 witness (amended claim): a concrete stride-1 filter-1 conv with
empty stored padding and border "ignore" gets decision ("VALID", none)
and all-zero computed padding. -/
theorem conv_filter_one_padding_decision_witness :
    opConvValidB.name = "conv" ∧
    opConvValidB.padding = .pairs [] ∧
    strLower opConvValidB.border ≠ "constant" ∧
    (∀ p ∈ _calculate_padding [10, 10] [10, 10] [1, 1]
      opConvValidB.stride opConvValidB.dilation, p = (0, 0)) ∧
    _get_paddings_st gConvValidB opConvValidB = some (gConvValidB, ("VALID", none)) := by
  have h := conv_filter_one_padding_decision gConvValidB opConvValidB
    (plainTensor [1, 1, 10, 10]) (plainTensor [1, 1, 1, 1]) (plainTensor [1, 1, 10, 10])
    2 [] rfl rfl (by decide) (by decide) (by decide) (by decide) (by decide)
  exact ⟨rfl, rfl, by decide, h.1, h.2.2.1 rfl (by decide)⟩
